import Mathlib

/-!
Formal model of the DiffusionReconstruct training code, a shallow embedding
of src/train.py and src/utils/vt_utils.py.  Tensors are modelled as
rational-valued index functions; the scheduler and the network are
collaborator functions passed in as parameters, except where a claim needs
their behaviour, in which case the definition is modelled from the spec and
says so in its doc comment.
-/

namespace DiffRecon

/-- A (batch, channel, y, x)-indexed tensor modelled as an index function
into rational values. -/
def Tens : Type := ℕ → ℕ → ℕ → ℕ → ℚ

/-- The fields of general_config and unet_config that the training step of
train.py reads. -/
structure TrainConfig where
  doEdmStyleTraining : Bool
  knownChannels : List ℕ
  sameMask : Bool
  outChannels : ℕ

/-- The dimensions of a concrete (B, C, H, W) tensor. -/
structure Dims where
  B : ℕ
  C : ℕ
  H : ℕ
  W : ℕ

/-- Modelled from the spec: the scheduler collaborator's add_noise operation
(the noise_schedulers module is not under src/).  Per the spec, the scheduler
exposes add_noise(clean, noise, timestep) -> noisy, and sigma is the standard
deviation of the Gaussian corruption applied to a clean sample at the batch
element's timestep, so noisy = clean + sigma(timestep)·noise. -/
def add_noise (sigma : ℕ → ℚ) (timesteps : ℕ → ℕ) (clean noise : Tens) : Tens :=
  fun b c y x => clean b c y x + sigma (timesteps b) * noise b c y x

/-- train.py line 373: noise = noise * (1 - mask). -/
def maskNoise (noise mask : Tens) : Tens :=
  fun b c y x => noise b c y x * (1 - mask b c y x)

/-- train.py lines 374-378: the mask channels concatenated to the network
input: under same_mask only the first known channel, otherwise the known
channels in list order. -/
def concat_mask (cfg : TrainConfig) (mask : Tens) : Tens :=
  fun b j y x =>
    if cfg.sameMask then mask b (cfg.knownChannels.getD 0 0) y x
    else mask b (cfg.knownChannels.getD j 0) y x

/-- torch.concatenate along dim 1: the first C channels come from the first
tensor, the remaining ones from the second. -/
def concatChannels (C : ℕ) (a b : Tens) : Tens :=
  fun bi c y x => if c < C then a bi c y x else b bi (c - C) y x

/-- train.py line 379: the noisy images are produced by the scheduler's
add_noise applied to the clean images and the mask-attenuated noise. -/
def noisy_images (sigma : ℕ → ℚ) (timesteps : ℕ → ℕ) (clean noise mask : Tens) : Tens :=
  add_noise sigma timesteps clean (maskNoise noise mask)

/-- train.py line 380: the network input is the noisy image with the mask
channels appended after the data channels. -/
def unet_input (cfg : TrainConfig) (C : ℕ) (sigma : ℕ → ℚ) (timesteps : ℕ → ℕ)
    (clean noise mask : Tens) : Tens :=
  concatChannels C (noisy_images sigma timesteps clean noise mask) (concat_mask cfg mask)

/-- A channel slice t[:, :C], reading zero outside the sliced range. -/
def firstChannels (C : ℕ) (t : Tens) : Tens :=
  fun b c y x => if c < C then t b c y x else 0

/-- train.py line 397: weighting = (sigmas ** 2 + 0.5 ** 2) / (sigmas * 0.5) ** 2. -/
def weighting (sigma : ℚ) : ℚ := (sigma ^ 2 + (1/2 : ℚ) ^ 2) / (sigma * (1/2 : ℚ)) ^ 2

/-- The fixed data-scale constant of the spec, σ_data = 0.5. -/
def sigma_data : ℚ := 1/2

/-- Specification-side per-sample loss weight (σ² + σ_data²) / (σ·σ_data)². -/
def specWeight (sigma : ℚ) : ℚ := (sigma ^ 2 + sigma_data ^ 2) / (sigma * sigma_data) ^ 2

/-- torch Tensor.mean(): the sum over all elements divided by the element count. -/
def tensorMean (d : Dims) (t : Tens) : ℚ :=
  (∑ b ∈ Finset.range d.B, ∑ c ∈ Finset.range d.C,
    ∑ y ∈ Finset.range d.H, ∑ x ∈ Finset.range d.W, t b c y x)
  / (d.B * d.C * d.H * d.W)

/-- train.py line 398: loss = (weighting * (clean - model_output) ** 2).mean(),
the per-sample weighting being broadcast over channels and positions. -/
def edm_loss (d : Dims) (sigmas : ℕ → ℚ) (clean pred : Tens) : ℚ :=
  tensorMean d (fun b c y x => weighting (sigmas b) * (clean b c y x - pred b c y x) ^ 2)

/-- train.py lines 382-392: the preconditioned model output of the EDM branch.
precondition_inputs is applied to the full concatenated input, the unet runs on
it, and precondition_outputs combines the first out_channels channels of the
concatenated noisy input with the raw network output. -/
def edm_model_output (cfg : TrainConfig) (d : Dims) (sigma : ℕ → ℚ) (timesteps : ℕ → ℕ)
    (clean noise mask : Tens)
    (precondIn : Tens → (ℕ → ℚ) → Tens)
    (unet : Tens → (ℕ → ℕ) → Tens)
    (precondOut : Tens → Tens → (ℕ → ℚ) → Tens) : Tens :=
  let xfull := unet_input cfg d.C sigma timesteps clean noise mask
  let sigmas : ℕ → ℚ := fun b => sigma (timesteps b)
  precondOut (firstChannels cfg.outChannels xfull) (unet (precondIn xfull sigmas) timesteps) sigmas

/-- One training-step loss computation, train.py lines 349-402.  The unet
forward pass and the scheduler preconditioning functions are collaborator
parameters.  Python locals that are assigned only inside the
do_edm_style_training branches (x_in at line 384, loss at line 398) are
modelled as Option, and reading an unassigned one is the Except.error that
Python raises as UnboundLocalError at the corresponding use site. -/
def trainStepLoss (cfg : TrainConfig) (d : Dims) (sigma : ℕ → ℚ) (timesteps : ℕ → ℕ)
    (clean noise mask : Tens)
    (precondIn : Tens → (ℕ → ℚ) → Tens)
    (unet : Tens → (ℕ → ℕ) → Tens)
    (precondOut : Tens → Tens → (ℕ → ℚ) → Tens) :
    Except String ℚ :=
  let xfull := unet_input cfg d.C sigma timesteps clean noise mask
  let sigmas : ℕ → ℚ := fun b => sigma (timesteps b)
  let x_in : Option Tens :=
    if cfg.doEdmStyleTraining then some (precondIn xfull sigmas) else none
  match x_in with
  | none => Except.error "UnboundLocalError: x_in"
  | some xin =>
    let raw := unet xin timesteps
    let model_output : Tens :=
      if cfg.doEdmStyleTraining then
        precondOut (firstChannels cfg.outChannels xfull) raw sigmas
      else raw
    let loss : Option ℚ :=
      if cfg.doEdmStyleTraining then some (edm_loss d sigmas clean model_output) else none
    match loss with
    | none => Except.error "UnboundLocalError: loss"
    | some l => Except.ok l

/-- Helper: the code weighting of line 397 coincides pointwise with the
spec formula written with the named constant sigma_data. -/
theorem weighting_eq_specWeight (s : ℚ) : weighting s = specWeight s := rfl

/-- Example configuration with EDM training enabled. -/
def exCfgEdm : TrainConfig := ⟨true, [0], false, 1⟩

/-- Example configuration with EDM training disabled. -/
def exCfgNoEdm : TrainConfig := ⟨false, [0], false, 1⟩

/-- Example tensor dimensions. -/
def exDims : Dims := ⟨1, 1, 1, 1⟩

/-- Example sigma schedule. -/
def exSigma : ℕ → ℚ := fun t => (t : ℚ) + 1

/-- Example per-batch timestep assignment. -/
def exT : ℕ → ℕ := fun b => b

/-- Example clean image batch. -/
def exClean : Tens := fun b c y x => (b : ℚ) + c + y + x

/-- Example noise draw. -/
def exNoise : Tens := fun _ _ _ _ => 3

/-- Example scatter mask, nonzero only on channel 0 at x = 0. -/
def exMask : Tens := fun _ c _ x => if c = 0 ∧ x = 0 then 1 else 0

/-- Example input preconditioning collaborator. -/
def exPrecondIn : Tens → (ℕ → ℚ) → Tens := fun t _ => t

/-- Example unet collaborator. -/
def exUnet : Tens → (ℕ → ℕ) → Tens := fun t _ => t

/-- Example output preconditioning collaborator. -/
def exPrecondOut : Tens → Tens → (ℕ → ℚ) → Tens :=
  fun skip raw _ => fun b c y x => (skip b c y x + raw b c y x) / 2

/-- C1: the composed noisy input equals the scheduler's add_noise applied to
(clean, noise·(1−mask), timestep); wherever the mask is 1 the noisy image
keeps the clean ground-truth value, wherever it is 0 the position receives the
full corruption clean + sigma·noise; and the mask of the known channels (only
the first known channel under same_mask) is concatenated after the data
channels of the network input. -/
theorem compose_input_spec (cfg : TrainConfig) (C : ℕ) (sigma : ℕ → ℚ)
    (timesteps : ℕ → ℕ) (clean noise mask : Tens) :
    (noisy_images sigma timesteps clean noise mask
        = add_noise sigma timesteps clean (maskNoise noise mask))
    ∧ (∀ b c y x, mask b c y x = 1 →
        noisy_images sigma timesteps clean noise mask b c y x = clean b c y x)
    ∧ (∀ b c y x, mask b c y x = 0 →
        noisy_images sigma timesteps clean noise mask b c y x
          = clean b c y x + sigma (timesteps b) * noise b c y x)
    ∧ (∀ b c y x, c < C →
        unet_input cfg C sigma timesteps clean noise mask b c y x
          = noisy_images sigma timesteps clean noise mask b c y x)
    ∧ (∀ b j y x,
        unet_input cfg C sigma timesteps clean noise mask b (C + j) y x
          = mask b (cfg.knownChannels.getD (if cfg.sameMask then 0 else j) 0) y x) := by
  refine ⟨rfl, ?_, ?_, ?_, ?_⟩
  · intro b c y x h
    simp [noisy_images, add_noise, maskNoise, h]
  · intro b c y x h
    simp [noisy_images, add_noise, maskNoise, h]
  · intro b c y x h
    simp [unet_input, concatChannels, h]
  · intro b j y x
    have hlt : ¬ (C + j < C) := by omega
    simp only [unet_input, concatChannels, if_neg hlt, Nat.add_sub_cancel_left, concat_mask]
    by_cases hs : cfg.sameMask <;> simp [hs]

/-- Witness for compose_input_spec at concrete inputs: the example mask is 1
at (0,0,0,0) and the noisy image keeps the clean value there, while at
(0,0,0,1) the mask is 0 and the noisy image is fully corrupted. -/
theorem compose_input_spec_witness :
    (exMask 0 0 0 0 = 1
      ∧ noisy_images exSigma exT exClean exNoise exMask 0 0 0 0 = exClean 0 0 0 0)
    ∧ (exMask 0 0 0 1 = 0
      ∧ noisy_images exSigma exT exClean exNoise exMask 0 0 0 1
          = exClean 0 0 0 1 + exSigma (exT 0) * exNoise 0 0 0 1) := by
  have h := compose_input_spec exCfgEdm 1 exSigma exT exClean exNoise exMask
  refine ⟨⟨by decide, h.2.1 0 0 0 0 (by decide)⟩, ⟨by decide, h.2.2.1 0 0 0 1 (by decide)⟩⟩

/-- C2: in EDM-style training the per-sample weight is
(σ² + σ_data²)/(σ·σ_data)² with σ_data = 0.5, the step loss is the mean over
all elements of weight·(clean − preconditioned_prediction)², and the weight
factors out per sample before the squared-error aggregation. -/
theorem edm_weight_loss_spec (cfg : TrainConfig) (d : Dims) (sigma : ℕ → ℚ)
    (timesteps : ℕ → ℕ) (clean noise mask : Tens)
    (precondIn : Tens → (ℕ → ℚ) → Tens) (unet : Tens → (ℕ → ℕ) → Tens)
    (precondOut : Tens → Tens → (ℕ → ℚ) → Tens)
    (h : cfg.doEdmStyleTraining = true) :
    (∀ s : ℚ, weighting s = (s ^ 2 + sigma_data ^ 2) / (s * sigma_data) ^ 2)
    ∧ sigma_data = 1/2
    ∧ trainStepLoss cfg d sigma timesteps clean noise mask precondIn unet precondOut
        = Except.ok (tensorMean d (fun b c y x =>
            specWeight (sigma (timesteps b))
              * (clean b c y x
                  - edm_model_output cfg d sigma timesteps clean noise mask
                      precondIn unet precondOut b c y x) ^ 2))
    ∧ (∀ pred : Tens, edm_loss d (fun b => sigma (timesteps b)) clean pred
        = (∑ b ∈ Finset.range d.B, specWeight (sigma (timesteps b)) *
            (∑ c ∈ Finset.range d.C, ∑ y ∈ Finset.range d.H, ∑ x ∈ Finset.range d.W,
              (clean b c y x - pred b c y x) ^ 2))
          / (d.B * d.C * d.H * d.W)) := by
  refine ⟨fun s => rfl, rfl, ?_, ?_⟩
  · simp only [trainStepLoss, h, if_true]
    rfl
  · intro pred
    simp only [edm_loss, tensorMean, weighting_eq_specWeight, Finset.mul_sum]

/-- Witness for edm_weight_loss_spec: the concrete EDM configuration satisfies
the hypothesis and the step loss evaluates to the spec-side mean. -/
theorem edm_weight_loss_spec_witness :
    trainStepLoss exCfgEdm exDims exSigma exT exClean exNoise exMask
        exPrecondIn exUnet exPrecondOut
      = Except.ok (tensorMean exDims (fun b c y x =>
          specWeight (exSigma (exT b))
            * (exClean b c y x
                - edm_model_output exCfgEdm exDims exSigma exT exClean exNoise exMask
                    exPrecondIn exUnet exPrecondOut b c y x) ^ 2)) :=
  (edm_weight_loss_spec exCfgEdm exDims exSigma exT exClean exNoise exMask
    exPrecondIn exUnet exPrecondOut rfl).2.2.1

/-- C7: with do_edm_style_training false the training step has no successful
execution: x_in is only assigned inside the EDM branch, so the step fails at
the network invocation with an UnboundLocalError and never returns a loss. -/
theorem non_edm_step_cannot_complete (cfg : TrainConfig) (d : Dims) (sigma : ℕ → ℚ)
    (timesteps : ℕ → ℕ) (clean noise mask : Tens)
    (precondIn : Tens → (ℕ → ℚ) → Tens) (unet : Tens → (ℕ → ℕ) → Tens)
    (precondOut : Tens → Tens → (ℕ → ℚ) → Tens)
    (h : cfg.doEdmStyleTraining = false) :
    trainStepLoss cfg d sigma timesteps clean noise mask precondIn unet precondOut
      = Except.error "UnboundLocalError: x_in"
    ∧ ∀ l : ℚ, trainStepLoss cfg d sigma timesteps clean noise mask
        precondIn unet precondOut ≠ Except.ok l := by
  constructor
  · simp [trainStepLoss, h]
  · intro l
    simp [trainStepLoss, h]

/-- Witness for non_edm_step_cannot_complete: the concrete non-EDM
configuration satisfies the hypothesis and the step errors out. -/
theorem non_edm_step_cannot_complete_witness :
    trainStepLoss exCfgNoEdm exDims exSigma exT exClean exNoise exMask
        exPrecondIn exUnet exPrecondOut
      = Except.error "UnboundLocalError: x_in" :=
  (non_edm_step_cannot_complete exCfgNoEdm exDims exSigma exT exClean exNoise exMask
    exPrecondIn exUnet exPrecondOut rfl).1

/-- State of one torch random generator: its seed and stream position. -/
structure GenState where
  seed : ℕ
  pos : ℕ
  deriving DecidableEq

/-- One draw from a generator: an injective pairing of seed and position
stands in for the numeric stream, and the position advances. -/
def drawG (g : GenState) : ℕ × GenState :=
  (Nat.pair g.seed g.pos, ⟨g.seed, g.pos + 1⟩)

/-- Random state visible to one training step: the process-global torch
generator (seeded by set_seed at train.py line 126) and the explicitly seeded
generator object that main creates at line 215. -/
structure RandCtx where
  globalGen : GenState
  suppliedGen : GenState
  deriving DecidableEq

/-- The values produced by the four stochastic operations of one training step. -/
structure StepRandoms where
  noiseDraw : ℕ
  timestepDraw : ℕ
  ratioDraw : ℕ
  maskDraw : ℕ
  deriving DecidableEq

/-- train.py lines 349-372: the stochastic operations of one training step.
torch.randn at line 351, the timestep selection at lines 357/367, torch.rand
at line 372 and create_scatter_mask at line 372 are all invoked without a
generator argument, so each one reads and advances the process-global torch
generator; the explicitly seeded generator object is never consulted. -/
def trainStepRandoms (ctx : RandCtx) : StepRandoms × RandCtx :=
  let p1 := drawG ctx.globalGen
  let p2 := drawG p1.2
  let p3 := drawG p2.2
  let p4 := drawG p3.2
  (⟨p1.1, p2.1, p3.1, p4.1⟩, { ctx with globalGen := p4.2 })

/-- Example random context A. -/
def exCtxA : RandCtx := ⟨⟨0, 0⟩, ⟨5, 0⟩⟩

/-- Example random context B: same supplied generator as A, different global
generator state. -/
def exCtxB : RandCtx := ⟨⟨1, 0⟩, ⟨5, 0⟩⟩

/-- Example random context C: same global generator as A, different supplied
generator state. -/
def exCtxC : RandCtx := ⟨⟨0, 0⟩, ⟨9, 4⟩⟩

/-- Counterexample to C6: two training-step executions from equal supplied
generator states but different global generator states produce different
noise/timestep/ratio/mask draws, so the step randomness is not governed by the
supplied generator. -/
theorem train_step_generator_counterexample :
    exCtxA.suppliedGen = exCtxB.suppliedGen
    ∧ (trainStepRandoms exCtxA).1 ≠ (trainStepRandoms exCtxB).1 := by
  decide

/-- C6 amended: the stochastic operations of the training step are governed by
the process-global torch generator (seeded once by set_seed): two executions
from equal global generator states produce identical draws and identical
successor global states, and the explicitly seeded generator object is left
unread and unchanged. -/
theorem train_step_randoms_follow_global_generator (c1 c2 : RandCtx)
    (h : c1.globalGen = c2.globalGen) :
    (trainStepRandoms c1).1 = (trainStepRandoms c2).1
    ∧ (trainStepRandoms c1).2.globalGen = (trainStepRandoms c2).2.globalGen
    ∧ (trainStepRandoms c1).2.suppliedGen = c1.suppliedGen := by
  refine ⟨?_, ?_, rfl⟩ <;> simp [trainStepRandoms, drawG, h]

/-- Witness for train_step_randoms_follow_global_generator: contexts A and C
share the global generator state and produce identical step randomness. -/
theorem train_step_randoms_follow_global_generator_witness :
    (trainStepRandoms exCtxA).1 = (trainStepRandoms exCtxC).1 :=
  (train_step_randoms_follow_global_generator exCtxA exCtxC rfl).1

/-- train.py lines 347-469: the inner batch loop at gradient accumulation 1.
Every iteration runs one optimization step and increments global_step
(lines 404-423), and only afterwards tests global_step >= num_training_steps
and breaks (lines 468-469).  Arguments: remaining batches, global_step,
executed optimization-step count; result: final (global_step, executed). -/
def epochLoop (numTrain : ℕ) : ℕ → ℕ → ℕ → ℕ × ℕ
  | 0, gs, ex => (gs, ex)
  | n + 1, gs, ex =>
    if numTrain ≤ gs + 1 then (gs + 1, ex + 1)
    else epochLoop numTrain n (gs + 1) (ex + 1)

/-- train.py line 344: the epoch loop runs every remaining epoch; the break of
line 469 leaves only the inner loop, so each remaining epoch enters its inner
loop again.  Arguments: remaining epochs, global_step, executed count. -/
def trainLoop (numTrain batches : ℕ) : ℕ → ℕ → ℕ → ℕ × ℕ
  | 0, gs, ex => (gs, ex)
  | e + 1, gs, ex =>
    let p := epochLoop numTrain batches gs ex
    trainLoop numTrain batches e p.1 p.2

/-- Helper: an epoch entered below the budget executes exactly the steps up to
the budget (or all its batches), never beyond. -/
theorem epochLoop_below_budget (numTrain : ℕ) :
    ∀ b gs ex, gs < numTrain →
      (epochLoop numTrain b gs ex).2 = ex + min b (numTrain - gs) := by
  intro b
  induction b with
  | zero => intro gs ex _; simp [epochLoop]
  | succ n ih =>
    intro gs ex hgs
    by_cases h : numTrain ≤ gs + 1
    · have : numTrain - gs = 1 := by omega
      simp [epochLoop, h, this]
    · have hlt : gs + 1 < numTrain := by omega
      have := ih (gs + 1) (ex + 1) hlt
      simp only [epochLoop, if_neg h, this]
      omega

/-- Helper: an epoch entered at or past the budget still executes one step
before its break, then stops. -/
theorem epochLoop_at_budget (numTrain : ℕ) :
    ∀ b gs ex, numTrain ≤ gs → 1 ≤ b →
      epochLoop numTrain b gs ex = (gs + 1, ex + 1) := by
  intro b gs ex h hb
  match b, hb with
  | n + 1, _ =>
    have : numTrain ≤ gs + 1 := by omega
    simp [epochLoop, this]

/-- Counterexample to C5: resuming with num_training_steps = 25, 10 batches
per epoch, from checkpoint-25 gives first_epoch = 2 of num_epochs = 3, so one
epoch remains although global_step = 25 already equals the budget; that epoch
still executes one further optimization step before its break. -/
theorem budget_stop_counterexample :
    25 ≥ 25 ∧ (trainLoop 25 10 1 25 0).2 = 1 := by
  decide

/-- C5 amended: within an epoch no optimization step runs after the counter
reaches the budget (the epoch executes exactly the steps up to the budget),
but the break leaves only the inner loop: every remaining epoch with a
nonempty dataloader executes exactly one further optimization step before its
own break, so e remaining epochs execute e further steps, not zero. -/
theorem budget_stop_amended (numTrain b e gs : ℕ) (hb : 1 ≤ b) (h : numTrain ≤ gs) :
    (∀ gs2 ex, gs2 < numTrain →
      (epochLoop numTrain b gs2 ex).2 = ex + min b (numTrain - gs2))
    ∧ epochLoop numTrain b gs 0 = (gs + 1, 1)
    ∧ (trainLoop numTrain b e gs 0).2 = e := by
  refine ⟨fun gs2 ex h2 => epochLoop_below_budget numTrain b gs2 ex h2,
    epochLoop_at_budget numTrain b gs 0 h hb, ?_⟩
  have key : ∀ e2 gs2 ex2, numTrain ≤ gs2 →
      (trainLoop numTrain b e2 gs2 ex2).2 = ex2 + e2 := by
    intro e2
    induction e2 with
    | zero => intro gs2 ex2 _; simp [trainLoop]
    | succ n ih =>
      intro gs2 ex2 h2
      simp only [trainLoop, epochLoop_at_budget numTrain b gs2 ex2 h2 hb]
      rw [ih (gs2 + 1) (ex2 + 1) (by omega)]
      omega
  rw [key e gs 0 h]
  omega

/-- Witness for budget_stop_amended at the concrete resume scenario of the
counterexample: one remaining epoch executes exactly one further step. -/
theorem budget_stop_amended_witness :
    epochLoop 25 10 25 0 = (26, 1) ∧ (trainLoop 25 10 1 25 0).2 = 1 := by
  have h := budget_stop_amended 25 10 1 25 (by decide) (by decide)
  exact ⟨h.2.1, h.2.2⟩

/-- Parameter state around an evaluation block: the live unet parameters, the
EMA shadow average, the EMAModel temporary storage, and the optimizer and lr
scheduler state, each abstracted to one integer cell. -/
structure EvalState where
  live : ℤ
  shadow : ℤ
  stored : Option ℤ
  optState : ℤ
  lrState : ℤ
  deriving DecidableEq

/-- EMAModel.store: remember the current live parameters. -/
def emaStore (s : EvalState) : EvalState := { s with stored := some s.live }

/-- EMAModel.copy_to: overwrite the live parameters with the shadow average. -/
def emaCopyTo (s : EvalState) : EvalState := { s with live := s.shadow }

/-- EMAModel.restore: write the remembered parameters back into the live ones. -/
def emaRestore (s : EvalState) : EvalState :=
  match s.stored with
  | some p => { s with live := p }
  | none => s

/-- train.py lines 474-487: the post-epoch evaluation block.  With use_ema the
code runs ema_model.store, ema_model.copy_to, evaluate, ema_model.restore in a
straight line with no try/finally; when evaluate raises, the exception
propagates (modelled as Except.error carrying the state at that point) and the
restore call is skipped.  evaluate itself does not modify the modelled state:
it runs under torch.no_grad on a separately constructed pipeline. -/
def evalBlock (useEma : Bool) (evalRaises : Bool) (s : EvalState) :
    Except EvalState EvalState :=
  let s1 := if useEma then emaCopyTo (emaStore s) else s
  if evalRaises then Except.error s1
  else Except.ok (if useEma then emaRestore s1 else s1)

/-- Example state entering the evaluation block: live and shadow parameters
differ, nothing stored yet. -/
def exEvalState : EvalState := ⟨1, 2, none, 7, 9⟩

/-- C4 on the code: when evaluation completes normally the block restores the
live parameters and leaves optimizer and lr scheduler state unchanged, but
when evaluate raises, the exception propagates past the restore call, leaving
the EMA shadow average in the live parameters: the exit state has live = 2 =
shadow instead of the original live = 1. -/
theorem eval_exception_skips_restore :
    evalBlock true false exEvalState = Except.ok ⟨1, 2, some 1, 7, 9⟩
    ∧ evalBlock true true exEvalState = Except.error ⟨2, 2, some 1, 7, 9⟩
    ∧ (2 : ℤ) ≠ exEvalState.live := by
  refine ⟨rfl, rfl, by decide⟩

/-- train.py lines 440-457 abstracted to the step numbers of the checkpoint
directories: sort ascending by step, and when the configured limit would be
exceeded by the coming save, remove the oldest length − limit + 1 entries so
that at most limit − 1 remain. -/
def enforceCheckpointLimit (limit : ℕ) (ckpts : List ℕ) : List ℕ :=
  let sorted := ckpts.insertionSort (· ≤ ·)
  if limit ≤ sorted.length then sorted.drop (sorted.length - limit + 1) else sorted

/-- train.py lines 440-460: one checkpoint save with checkpoints_total_limit
configured: evict the oldest checkpoints first, then save checkpoint-step. -/
def saveCheckpoint (limit step : ℕ) (ckpts : List ℕ) : List ℕ :=
  enforceCheckpointLimit limit ckpts ++ [step]

/-- C3: after a save with limit L ≥ 1 at most L checkpoints remain (exactly
min (n+1) L of them); on a step-sorted directory holding at least L
checkpoints the save keeps precisely the L − 1 newest old checkpoints followed
by the new one, i.e. the L most recent; and the concrete scenario of 5
successive saves with L = 3 leaves exactly the 3 most recent. -/
theorem checkpoint_retention (L step : ℕ) (ckpts : List ℕ) (hL : 1 ≤ L) :
    (saveCheckpoint L step ckpts).length = min (ckpts.length + 1) L
    ∧ (List.Sorted (· ≤ ·) ckpts → L ≤ ckpts.length →
        saveCheckpoint L step ckpts = ckpts.drop (ckpts.length - L + 1) ++ [step])
    ∧ List.foldl (fun acc s => saveCheckpoint 3 s acc) [] [100, 200, 300, 400, 500]
        = [300, 400, 500] := by
  refine ⟨?_, ?_, by decide⟩
  · simp only [saveCheckpoint, enforceCheckpointLimit, List.length_append]
    by_cases h : L ≤ (ckpts.insertionSort (· ≤ ·)).length
    · rw [if_pos h]
      rw [List.length_insertionSort] at h
      simp only [List.length_drop, List.length_insertionSort, List.length_singleton]
      omega
    · rw [if_neg h]
      rw [List.length_insertionSort] at h
      simp only [List.length_insertionSort, List.length_singleton]
      omega
  · intro hs hlen
    simp only [saveCheckpoint, enforceCheckpointLimit, hs.insertionSort_eq]
    rw [if_pos hlen]

/-- Witness for checkpoint_retention: saving step 40 with limit 3 over the
sorted directory {10, 20, 30} keeps exactly the 3 most recent. -/
theorem checkpoint_retention_witness :
    saveCheckpoint 3 40 [10, 20, 30] = [20, 30, 40]
    ∧ (saveCheckpoint 3 40 [10, 20, 30]).length = min 4 3 := by
  have h := checkpoint_retention 3 40 [10, 20, 30] (by decide)
  exact ⟨(h.2.1 (by decide) (by decide)).trans (by decide), h.1⟩

/-- Character-list model of str.startswith. -/
def listStartsWith : List Char → List Char → Bool
  | _, [] => true
  | [], _ :: _ => false
  | a :: as, b :: bs => a == b && listStartsWith as bs

/-- Character-list model of str.split on a one-character separator. -/
def splitOnChar (sep : Char) : List Char → List (List Char)
  | [] => [[]]
  | c :: cs =>
    if c = sep then [] :: splitOnChar sep cs
    else
      match splitOnChar sep cs with
      | [] => [[c]]
      | h :: t => (c :: h) :: t

/-- Numeric value of a decimal digit character. -/
def digitVal (c : Char) : Option ℕ :=
  if '0' ≤ c ∧ c ≤ '9' then some (c.toNat - '0'.toNat) else none

/-- Accumulator loop of the decimal parse. -/
def parseNatAux : List Char → ℕ → Option ℕ
  | [], acc => some acc
  | c :: cs, acc =>
    match digitVal c with
    | some d => parseNatAux cs (acc * 10 + d)
    | none => none

/-- Model of Python int(...) on a nonnegative decimal string: none where
Python raises ValueError. -/
def parseNat : List Char → Option ℕ
  | [] => none
  | cs => parseNatAux cs 0

/-- train.py line 315 sort key int(x.split("-")[1]): the integer step suffix
of a checkpoint directory name; names the saver never produces map to 0 where
Python would raise instead. -/
def ckptStep (s : String) : ℕ :=
  (parseNat ((splitOnChar '-' s.data).getD 1 [])).getD 0

/-- train.py lines 311-316: resolution of the "latest" checkpoint: keep the
directory entries whose names start with "checkpoint", sort them by their
integer step suffix, and take the last one, or None when none exist. -/
def resolveLatest (listing : List String) : Option String :=
  let dirs := listing.filter (fun d => listStartsWith d.data "checkpoint".data)
  let sorted := dirs.insertionSort (fun a b => ckptStep a ≤ ckptStep b)
  sorted.getLast?

/-- Model of os.path.basename: the part after the final slash. -/
def pathBasename (s : String) : List Char :=
  ((splitOnChar '/' s.data).getLast?).getD []

/-- Outcome of the resume-handling block of train.py lines 307-333. -/
structure ResumeOutcome where
  loadedPath : Option (List Char)
  initialGlobalStep : ℕ
  noticePrinted : Bool
  resumeCleared : Bool
  deriving DecidableEq

/-- train.py lines 307-333: resume handling.  No flag means a fresh start; the
value "latest" resolves through resolveLatest; any other value is used as a
path basename directly.  When resolution yields no path the code prints the
does-not-exist notice, clears resume_from_checkpoint and starts from global
step 0; otherwise it loads the checkpoint and takes the global step from the
directory-name suffix. -/
def resumeFromCheckpoint (resumeArg : Option String) (listing : List String) :
    ResumeOutcome :=
  match resumeArg with
  | none => ⟨none, 0, false, false⟩
  | some arg =>
    let path : Option (List Char) :=
      if arg = "latest" then (resolveLatest listing).map String.data
      else some (pathBasename arg)
    match path with
    | none => ⟨none, 0, true, true⟩
    | some p => ⟨some p, (parseNat ((splitOnChar '-' p).getD 1 [])).getD 0, false, false⟩

/-- C8: when training is launched with resume_from_checkpoint = "latest" and
no entry of the output directory starts with "checkpoint", the run falls back
to a fresh start from global step 0, prints the explicit notice and loads
nothing, rather than failing. -/
theorem resume_latest_fallback (listing : List String)
    (h : ∀ d ∈ listing, ¬ listStartsWith d.data "checkpoint".data) :
    resumeFromCheckpoint (some "latest") listing
      = ⟨none, 0, true, true⟩ := by
  have hf : listing.filter (fun d => listStartsWith d.data "checkpoint".data) = [] :=
    List.filter_eq_nil_iff.mpr h
  simp [resumeFromCheckpoint, resolveLatest, hf]

/-- Witness for resume_latest_fallback: an output directory holding only logs
and samples triggers the fresh-start fallback. -/
theorem resume_latest_fallback_witness :
    resumeFromCheckpoint (some "latest") ["logs", "samples"]
      = ⟨none, 0, true, true⟩ :=
  resume_latest_fallback ["logs", "samples"] (by decide)

/-- Concatenation of the images of a list-valued function, written out
structurally so its interaction lemmas are direct inductions. -/
def concatMapL {α β : Type} (f : α → List β) : List α → List β
  | [] => []
  | a :: as => f a ++ concatMapL f as

/-- Membership in a concatMapL image. -/
theorem mem_concatMapL {α β : Type} (f : α → List β) (l : List α) (b : β) :
    b ∈ concatMapL f l ↔ ∃ a ∈ l, b ∈ f a := by
  induction l with
  | nil => simp [concatMapL]
  | cons a as ih => simp [concatMapL, ih]

/-- Filtering distributes over concatMapL. -/
theorem filter_concatMapL {α β : Type} (p : β → Bool) (f : α → List β) (l : List α) :
    (concatMapL f l).filter p = concatMapL (fun a => (f a).filter p) l := by
  induction l with
  | nil => rfl
  | cons a as ih => simp [concatMapL, List.filter_append, ih]

/-- Mapping distributes over concatMapL. -/
theorem map_concatMapL {α β γ : Type} (g : β → γ) (f : α → List β) (l : List α) :
    (concatMapL f l).map g = concatMapL (fun a => (f a).map g) l := by
  induction l with
  | nil => rfl
  | cons a as ih => simp [concatMapL, ih]

/-- concatMapL only depends on the function's values on the list. -/
theorem concatMapL_congr {α β : Type} {f g : α → List β} {l : List α}
    (h : ∀ a ∈ l, f a = g a) : concatMapL f l = concatMapL g l := by
  induction l with
  | nil => rfl
  | cons a as ih =>
    simp only [concatMapL]
    rw [h a (List.mem_cons_self a as), ih (fun a2 h2 => h a2 (List.mem_cons_of_mem a h2))]

/-- concatMapL of a function that is empty on the list is empty. -/
theorem concatMapL_eq_nil {α β : Type} {f : α → List β} {l : List α}
    (h : ∀ a ∈ l, f a = []) : concatMapL f l = [] := by
  induction l with
  | nil => rfl
  | cons a as ih =>
    simp only [concatMapL]
    rw [h a (List.mem_cons_self a as), ih (fun a2 h2 => h a2 (List.mem_cons_of_mem a h2))]
    rfl

/-- Over a duplicate-free list, concatMapL of an indicator function collapses
to its single possible block. -/
theorem concatMapL_single {α β : Type} [DecidableEq α] (a0 : α) (X : List β) :
    ∀ l : List α, l.Nodup →
      concatMapL (fun a => if a = a0 then X else []) l = if a0 ∈ l then X else [] := by
  intro l
  induction l with
  | nil => intro _; rfl
  | cons a as ih =>
    intro hn
    simp only [concatMapL]
    by_cases ha : a = a0
    · subst ha
      have hnotin : a ∉ as := (List.nodup_cons.mp hn).1
      rw [if_pos rfl,
        concatMapL_eq_nil (fun a2 h2 => if_neg (fun he => hnotin (by rw [← he]; exact h2))),
        List.append_nil, if_pos (List.mem_cons_self a as)]
    · rw [if_neg ha, List.nil_append, ih (List.nodup_cons.mp hn).2]
      have hiff : (a0 ∈ a :: as) ↔ (a0 ∈ as) := by
        simp only [List.mem_cons]
        exact or_iff_right (fun he => ha he.symm)
      rw [if_congr hiff rfl rfl]

/-- torch.nonzero(mask, as_tuple=True) on a (B, C, H, W) tensor, vt_utils.py
line 21: the (b, c, y, x) index tuples of the nonzero entries in row-major
order. -/
def nonzeroTuples (B C H W : ℕ) (mask : ℕ → ℕ → ℕ → ℕ → ℚ) :
    List (ℕ × ℕ × ℕ × ℕ) :=
  concatMapL (fun b => concatMapL (fun c => concatMapL (fun y =>
      (List.range W).filterMap (fun x =>
        if mask b c y x ≠ 0 then some (b, c, y, x) else none))
    (List.range H)) (List.range C)) (List.range B)

/-- vt_utils.py lines 14-23 on a 4-dimensional mask: keep the nonzero index
tuples whose batch and channel equal the requested ones (torch.logical_and of
the two equality tests) and column-stack their (x, y) pairs. -/
def get_grid_points_from_mask (batch_idx channel_idx B C H W : ℕ)
    (mask : ℕ → ℕ → ℕ → ℕ → ℚ) : List (ℕ × ℕ) :=
  ((nonzeroTuples B C H W mask).filter
      (fun t => t.1 == batch_idx && t.2.1 == channel_idx)).map
    (fun t => (t.2.2.2, t.2.2.1))

/-- vt_utils.py lines 18-20: a 3-dimensional (C, H, W) mask is unsqueezed to
batch size 1 before the same selection. -/
def get_grid_points_from_mask3 (batch_idx channel_idx C H W : ℕ)
    (mask : ℕ → ℕ → ℕ → ℚ) : List (ℕ × ℕ) :=
  get_grid_points_from_mask batch_idx channel_idx 1 C H W (fun _ c y x => mask c y x)

/-- Specification-side value: the (x, y) pairs of the nonzero entries of one
(H, W) slice, in row-major order. -/
def slicePoints (H W : ℕ) (f : ℕ → ℕ → ℚ) : List (ℕ × ℕ) :=
  concatMapL (fun y => (List.range W).filterMap (fun x =>
    if f y x ≠ 0 then some (x, y) else none)) (List.range H)

/-- Helper, x level, matching batch and channel: filtering the tuples of the
target (b0, c0, y) row and projecting to (x, y) recovers the row of the
slice. -/
theorem xlevel_eq (b0 c0 y : ℕ) (m : ℕ → ℚ) :
    ∀ LX : List ℕ,
      ((LX.filterMap (fun x => if m x ≠ 0 then some (b0, c0, y, x) else none)).filter
          (fun t => t.1 == b0 && t.2.1 == c0)).map (fun t => (t.2.2.2, t.2.2.1))
        = LX.filterMap (fun x => if m x ≠ 0 then some (x, y) else none) := by
  intro LX
  induction LX with
  | nil => rfl
  | cons x xs ih =>
    by_cases h : m x = 0
    · have e1 : (if m x ≠ 0 then some (b0, c0, y, x) else none) = none :=
        if_neg (not_not_intro h)
      have e2 : (if m x ≠ 0 then some (x, y) else none) = none :=
        if_neg (not_not_intro h)
      simp only [List.filterMap_cons, e1, e2]
      exact ih
    · have e1 : (if m x ≠ 0 then some (b0, c0, y, x) else none) = some (b0, c0, y, x) :=
        if_pos h
      have e2 : (if m x ≠ 0 then some (x, y) else none) = some (x, y) := if_pos h
      simp only [List.filterMap_cons, e1, e2, List.filter_cons, beq_self_eq_true,
        Bool.and_self, if_true, List.map_cons]
      exact congrArg (fun l => (x, y) :: l) ih

/-- Helper, x level, non-matching batch or channel: the filter removes the
whole row. -/
theorem xlevel_ne (b c b0 c0 y : ℕ) (m : ℕ → ℚ) (h : ¬ (b = b0 ∧ c = c0)) :
    ∀ LX : List ℕ,
      (LX.filterMap (fun x => if m x ≠ 0 then some (b, c, y, x) else none)).filter
          (fun t => t.1 == b0 && t.2.1 == c0) = [] := by
  intro LX
  induction LX with
  | nil => rfl
  | cons x xs ih =>
    have hfalse : ((b == b0 && c == c0) : Bool) = false := by
      simp only [Bool.and_eq_false_iff, beq_eq_false_iff_ne]
      by_cases hb : b = b0
      · exact Or.inr (fun hc => h ⟨hb, hc⟩)
      · exact Or.inl hb
    by_cases hm : m x = 0
    · have e1 : (if m x ≠ 0 then some (b, c, y, x) else none) = none :=
        if_neg (not_not_intro hm)
      simp only [List.filterMap_cons, e1]
      exact ih
    · have e1 : (if m x ≠ 0 then some (b, c, y, x) else none) = some (b, c, y, x) :=
        if_pos hm
      simp only [List.filterMap_cons, e1, List.filter_cons, hfalse, Bool.false_eq_true,
        if_false]
      exact ih

/-- Helper, (b, c) block level: the filtered, projected block of batch b and
channel c is the slice exactly when (b, c) is the requested pair. -/
theorem bclevel (b c b0 c0 H W : ℕ) (mask : ℕ → ℕ → ℕ → ℕ → ℚ) :
    ((concatMapL (fun y => (List.range W).filterMap (fun x =>
          if mask b c y x ≠ 0 then some (b, c, y, x) else none)) (List.range H)).filter
        (fun t => t.1 == b0 && t.2.1 == c0)).map (fun t => (t.2.2.2, t.2.2.1))
      = if b = b0 ∧ c = c0 then slicePoints H W (mask b0 c0) else [] := by
  rw [filter_concatMapL, map_concatMapL]
  by_cases h : b = b0 ∧ c = c0
  · obtain ⟨rfl, rfl⟩ := h
    rw [if_pos ⟨rfl, rfl⟩, slicePoints]
    exact concatMapL_congr (fun y _ => xlevel_eq b c y (mask b c y) (List.range W))
  · rw [if_neg h]
    exact concatMapL_eq_nil (fun y _ => by
      rw [xlevel_ne b c b0 c0 y (mask b c y) h (List.range W)]
      rfl)

/-- C10: get_grid_points_from_mask returns exactly the column-stacked (x, y)
pairs of the nonzero entries of the selected (batch, channel) slice — values
at every other batch or channel index never contribute — a pair is in the
result iff the mask is nonzero at that position of the slice, and a
3-dimensional mask is treated as having batch index 0. -/
theorem grid_points_from_mask_spec (b0 c0 B C H W : ℕ)
    (mask : ℕ → ℕ → ℕ → ℕ → ℚ) :
    (get_grid_points_from_mask b0 c0 B C H W mask
        = if b0 < B ∧ c0 < C then slicePoints H W (mask b0 c0) else [])
    ∧ (∀ x y, (x, y) ∈ get_grid_points_from_mask b0 c0 B C H W mask ↔
        b0 < B ∧ c0 < C ∧ y < H ∧ x < W ∧ mask b0 c0 y x ≠ 0)
    ∧ (∀ mask3 : ℕ → ℕ → ℕ → ℚ,
        get_grid_points_from_mask3 b0 c0 C H W mask3
          = if b0 = 0 ∧ c0 < C then slicePoints H W (mask3 c0) else []) := by
  have hchar : ∀ (B2 : ℕ) (mask2 : ℕ → ℕ → ℕ → ℕ → ℚ),
      get_grid_points_from_mask b0 c0 B2 C H W mask2
        = if b0 < B2 ∧ c0 < C then slicePoints H W (mask2 b0 c0) else [] := by
    intro B2 mask2
    rw [get_grid_points_from_mask, nonzeroTuples, filter_concatMapL, map_concatMapL]
    have hb : ∀ b ∈ List.range B2,
        ((concatMapL (fun c => concatMapL (fun y => (List.range W).filterMap (fun x =>
            if mask2 b c y x ≠ 0 then some (b, c, y, x) else none)) (List.range H))
          (List.range C)).filter (fun t => t.1 == b0 && t.2.1 == c0)).map
            (fun t => (t.2.2.2, t.2.2.1))
          = if b = b0 then (if c0 ∈ List.range C then slicePoints H W (mask2 b0 c0) else [])
            else [] := by
      intro b _
      rw [filter_concatMapL, map_concatMapL]
      rw [concatMapL_congr (fun c _ => bclevel b c b0 c0 H W mask2)]
      by_cases hbb : b = b0
      · subst hbb
        rw [if_pos rfl]
        have hcfun : ∀ c ∈ List.range C,
            (if b = b ∧ c = c0 then slicePoints H W (mask2 b c0) else [])
              = (if c = c0 then slicePoints H W (mask2 b c0) else []) := by
          intro c _
          by_cases hc : c = c0
          · rw [if_pos ⟨rfl, hc⟩, if_pos hc]
          · rw [if_neg (fun hp => hc hp.2), if_neg hc]
        rw [concatMapL_congr hcfun]
        exact concatMapL_single c0 (slicePoints H W (mask2 b c0)) (List.range C)
          (List.nodup_range C)
      · rw [if_neg hbb]
        exact concatMapL_eq_nil (fun c _ => if_neg (fun hp => hbb hp.1))
    rw [concatMapL_congr hb,
      concatMapL_single b0 (if c0 ∈ List.range C then slicePoints H W (mask2 b0 c0) else [])
        (List.range B2) (List.nodup_range B2)]
    simp only [List.mem_range]
    by_cases h1 : b0 < B2 <;> by_cases h2 : c0 < C <;>
      simp [h1, h2]
  refine ⟨hchar B mask, ?_, ?_⟩
  · intro x y
    rw [hchar B mask]
    by_cases h1 : b0 < B ∧ c0 < C
    · rw [if_pos h1]
      have hm : (x, y) ∈ slicePoints H W (mask b0 c0) ↔
          y < H ∧ x < W ∧ mask b0 c0 y x ≠ 0 := by
        simp only [slicePoints, mem_concatMapL, List.mem_filterMap, List.mem_range]
        constructor
        · rintro ⟨a, ha, b, hb, he⟩
          by_cases hcond : mask b0 c0 a b ≠ 0
          · rw [if_pos hcond, Option.some.injEq, Prod.mk.injEq] at he
            obtain ⟨rfl, rfl⟩ := he
            exact ⟨ha, hb, hcond⟩
          · rw [if_neg hcond] at he
            exact Option.noConfusion he
        · rintro ⟨hy, hx, hnz⟩
          exact ⟨y, hy, x, hx, by rw [if_pos hnz]⟩
      rw [hm]
      tauto
    · rw [if_neg h1]
      simp only [List.not_mem_nil, false_iff]
      intro hc
      exact h1 ⟨hc.1, hc.2.1⟩
  · intro mask3
    rw [get_grid_points_from_mask3, hchar 1 (fun _ c y x => mask3 c y x)]
    have : b0 < 1 ↔ b0 = 0 := by omega
    by_cases hb : b0 = 0 <;> simp [hb, this]

/-- torch.arange(0, stop, step): the multiples of step strictly below stop,
of which there are ceil(stop / step). -/
def arange (stop step : ℕ) : List ℕ :=
  (List.range ((stop + step - 1) / step)).map (fun k => k * step)

/-- Helper: every arange element is strictly below the stop value. -/
theorem mem_arange_lt (stop step a : ℕ) (hs : 1 ≤ step) (h : a ∈ arange stop step) :
    a + 1 ≤ stop := by
  simp only [arange, List.mem_map, List.mem_range] at h
  obtain ⟨k, hk, rfl⟩ := h
  have h2 : k + 1 ≤ (stop + step - 1) / step := hk
  rw [Nat.le_div_iff_mul_le hs] at h2
  rw [add_mul, one_mul] at h2
  omega

/-- vt_utils.py lines 26-53: structure_obs on a vt_obs built with the given
dimensions and spacings.  The start grids are the meshgrid of
arange(0, dim − spacing + 1, spacing) in both directions, and each flattened
coordinate adds a per-grid-point offset drawn by randint(0, spacing); the
offsets are abstracted as functions of the start-grid point, which randint
guarantees to be strictly below the spacing. -/
def structure_obs (x_dim y_dim x_spacing y_spacing : ℕ)
    (x_offset y_offset : ℕ → ℕ → ℕ) : List (ℕ × ℕ) :=
  concatMapL (fun sx =>
      (arange (y_dim - y_spacing + 1) y_spacing).map (fun sy =>
        (sx + x_offset sx sy, sy + y_offset sx sy)))
    (arange (x_dim - x_spacing + 1) x_spacing)

/-- C9: with 1 ≤ x_spacing ≤ x_dim and 1 ≤ y_spacing ≤ y_dim, and offsets
strictly below the spacings as randint produces, every observation coordinate
returned by structure_obs lies inside the grid: x ≤ x_dim − 1 and
y ≤ y_dim − 1 (coordinates are naturals, so 0 ≤ x and 0 ≤ y throughout). -/
theorem structure_obs_in_grid (x_dim y_dim x_spacing y_spacing : ℕ)
    (x_offset y_offset : ℕ → ℕ → ℕ)
    (hx1 : 1 ≤ x_spacing) (hx2 : x_spacing ≤ x_dim)
    (hy1 : 1 ≤ y_spacing) (hy2 : y_spacing ≤ y_dim)
    (hxo : ∀ i j, x_offset i j < x_spacing)
    (hyo : ∀ i j, y_offset i j < y_spacing) :
    ∀ p ∈ structure_obs x_dim y_dim x_spacing y_spacing x_offset y_offset,
      p.1 ≤ x_dim - 1 ∧ p.2 ≤ y_dim - 1 := by
  intro p hp
  rw [structure_obs, mem_concatMapL] at hp
  obtain ⟨sx, hsx, hp2⟩ := hp
  simp only [List.mem_map] at hp2
  obtain ⟨sy, hsy, rfl⟩ := hp2
  have h1 := mem_arange_lt _ _ _ hx1 hsx
  have h2 := mem_arange_lt _ _ _ hy1 hsy
  have h3 := hxo sx sy
  have h4 := hyo sx sy
  exact ⟨by simp only []; omega, by simp only []; omega⟩

/-- Witness for structure_obs_in_grid: on a 4 by 3 grid with spacings 2 and 1
and offsets 1 and 0, the returned coordinate (1, 0) is inside the grid. -/
theorem structure_obs_in_grid_witness :
    (1, 0) ∈ structure_obs 4 3 2 1 (fun _ _ => 1) (fun _ _ => 0)
    ∧ (1 ≤ 4 - 1 ∧ 0 ≤ 3 - 1) := by
  have h := structure_obs_in_grid 4 3 2 1 (fun _ _ => 1) (fun _ _ => 0)
    (by decide) (by decide) (by decide) (by decide)
    (fun _ _ => by show 1 < 2; decide) (fun _ _ => by show 0 < 1; decide)
  exact ⟨by decide, h (1, 0) (by decide)⟩

end DiffRecon
